import Mathlib

/-!
Shallow embedding of the NeoMutt Expando engine core: the compiled-Expando
facade (`expando_new`, `expando_parse`, `expando_render`, `expando_equal`)
and the recursive-descent parser (`node_parse`, `node_tree_parse`,
`skip_until_if_true_end`, `skip_until_if_false_end`).

A C string is a NUL-terminated byte sequence; we model it as `List Char`
with a cursor index, and model the terminating NUL by reading any
out-of-range position as the NUL character.  Recursive scans carry an
explicit step budget chosen so that it never runs out on NUL-terminated
input (`s.length + 1 - i` steps always reach either the answer or NUL).
Helper functions whose C sources are outside the embedded files are
modelled from the specification and carry a doc comment saying so.
-/

/-- C strings modelled as character lists (one `Char` per byte). -/
abbrev Str := List Char

/-- The NUL character that terminates every C string. -/
def nul : Char := Char.ofNat 0

/-- Dereference of byte `i` of string `s`: positions at or past the end of
the list read as the terminating NUL. -/
def chr (s : Str) (i : Nat) : Char := s.getD i nul

/-- Convenience conversion from Lean string literals to `Str`. -/
def toL (s : String) : Str := s.toList

/-- The bound check of the parser loop `while (*str && (end ? (str <= end) : 1))`:
a null `end` pointer means unbounded, otherwise the cursor may run up to and
including `end`. -/
def inBound (i : Nat) (e : Option Nat) : Prop :=
  match e with
  | some x => i ≤ x
  | none => True

instance (i : Nat) (e : Option Nat) : Decidable (inBound i e) :=
  match e with
  | some x => inferInstanceAs (Decidable (i ≤ x))
  | none => inferInstanceAs (Decidable True)

/-- Step-bounded scan behind `skip_until_ch`. -/
def skip_ch_go (s : Str) (c : Char) : Nat → Nat → Nat
  | 0, i => i
  | k + 1, i => if chr s i = nul ∨ chr s i = c then i else skip_ch_go s c k (i + 1)

/-- Modelled from the spec: the helper `skip_until_ch` advances the cursor to
the first occurrence of the terminator character, or to the end of the
string (`parse.c` finds the test slot by scanning to the first question
mark with it). -/
def skip_until_ch (s : Str) (i : Nat) (c : Char) : Nat :=
  skip_ch_go s c (s.length + 1 - i) i

/-- One counter update of the conditional forward scans: `%<` increments the
nesting counter, an un-escaped `>` decrements it (`parse.c` lines 197-206). -/
def stepCtr (prev c : Char) (ctr : Int) : Int :=
  let ctr1 := if prev = '%' ∧ c = '<' then ctr + 1 else ctr
  if c = '>' ∧ prev ≠ '%' then ctr1 - 1 else ctr1

/-- Step-bounded loop of `skip_until_if_true_end`.  The break test runs before
the counter updates, exactly as in the C loop. -/
def skip_true_go (s : Str) (term : Char) : Nat → Int → Char → Nat → Nat
  | 0, _, _, i => i
  | k + 1, ctr, prev, i =>
    if chr s i = nul then i
    else if ctr = 0 ∧ ((chr s i = term ∧ prev ≠ '%') ∨ chr s i = '&') then i
    else skip_true_go s term k (stepCtr prev (chr s i) ctr) (chr s i) (i + 1)

/-- Embeds `skip_until_if_true_end` (`parse.c` lines 186-213): search for the end of
an if-true branch, returning the index of the terminator or of the end of
the string. -/
def skip_until_if_true_end (s : Str) (i : Nat) (term : Char) : Nat :=
  skip_true_go s term (s.length + 1 - i) 0 nul i

/-- Step-bounded loop of `skip_until_if_false_end`. -/
def skip_false_go (s : Str) (term : Char) : Nat → Int → Char → Nat → Nat
  | 0, _, _, i => i
  | k + 1, ctr, prev, i =>
    if chr s i = nul then i
    else if ctr = 0 ∧ chr s i = term ∧ prev ≠ '%' then i
    else skip_false_go s term k (stepCtr prev (chr s i) ctr) (chr s i) (i + 1)

/-- Embeds `skip_until_if_false_end` (`parse.c` lines 221-248): like the if-true scan
but only the end terminator stops it. -/
def skip_until_if_false_end (s : Str) (i : Nat) (term : Char) : Nat :=
  skip_false_go s term (s.length + 1 - i) 0 nul i

/-- The node variants of the parsed tree.  A conditional holds its test node,
the if-true sibling chain, and an optional if-false sibling chain (a null
`FALSE` pointer is `none`); sibling chains are lists in textual order. -/
inductive ExpandoNode : Type where
  | empty : ExpandoNode
  | text : Str → ExpandoNode
  | condBool : Str → ExpandoNode
  | expando : Str → ExpandoNode
  | condition : ExpandoNode → List ExpandoNode → Option (List ExpandoNode) → ExpandoNode

/-- One entry of the host-supplied definition table (`struct ExpandoDefinition`);
the custom-parser and value-kind fields are not needed by the embedded paths. -/
structure ExpandoDefinition where
  short_name : Str
  long_name : Option Str := none
  did : Int := 0
  uid : Int := 0

/-- The located parse error record (`struct ExpandoParseError`): a bounded
message and a position pointer, null (`none`) meaning no error. -/
structure ExpandoParseError where
  message : String
  position : Option Nat

/-- A zero-initialised error record, as `{ 0 }` in C. -/
def initErr : ExpandoParseError := { message := "", position := none }

/-- Embeds `enum ExpandoConditionStart`: whether the parser sits in the test slot of
a conditional. -/
inductive ExpandoConditionStart : Type where
  | CON_NO_CONDITION : ExpandoConditionStart
  | CON_START : ExpandoConditionStart
deriving DecidableEq

/-- The apostrophe character, used to quote characters in error messages. -/
def apos : Char := Char.ofNat 39

/-- Quote a character for an error message. -/
def quoted (c : Char) : String :=
  String.singleton apos ++ String.singleton c ++ String.singleton apos

/-- The message `Conditional expando is missing '%c'` of `parse.c`
(localisation modelled as the identity). -/
def msg_missing (c : Char) : String :=
  "Conditional expando is missing " ++ quoted c

/-- The message `Conditional expando is missing '&' or '%c'` of `parse.c`. -/
def msg_missing_or (c : Char) : String :=
  "Conditional expando is missing " ++ quoted '&' ++ " or " ++ quoted c

/-- Step-bounded scan of the text parser: stop at NUL, at a percent sign, or
at the end bound. -/
def text_go (s : Str) (e : Option Nat) : Nat → Nat → Nat
  | 0, i => i
  | k + 1, i =>
    if chr s i = nul ∨ chr s i = '%' ∨ e = some i then i
    else text_go s e k (i + 1)

/-- Modelled from the spec: the text-node parser (`node_text.c`) consumes a
literal run up to a percent sign or the supplied end bound, never emitting a
zero-length text node, and advances the cursor to (not past) the stop
character. -/
def node_text_parse (s : Str) (i : Nat) (e : Option Nat) : Option (ExpandoNode × Nat) :=
  let j := text_go s e (s.length + 1 - i) i
  if i < j then some (.text ((s.drop i).take (j - i)), j) else none

/-- Step-bounded scan over decimal digits. -/
def digit_go (s : Str) : Nat → Nat → Nat
  | 0, i => i
  | k + 1, i => if (chr s i).isDigit then digit_go s k (i + 1) else i

/-- Modelled from the spec: skip the format spec
`("-"|"=")? ("0")? digits? ("." digits)?` that may precede an expando code. -/
def skip_fmt (s : Str) (i : Nat) : Nat :=
  let i1 := if chr s i = '-' ∨ chr s i = '=' then i + 1 else i
  let i2 := digit_go s (s.length + 1 - i1) i1
  if chr s i2 = '.' then digit_go s (s.length + 1 - (i2 + 1)) (i2 + 1) else i2

/-- Modelled from the spec: look the one- or two-byte code at position `i` up
in the definition table, trying the longer name first; a code character can
never be the terminating NUL because a null short-name ends the table. -/
def defs_lookup (defs : List ExpandoDefinition) (s : Str) (i : Nat) :
    Option (ExpandoDefinition × Nat) :=
  if chr s i = nul then none
  else
    match (if chr s (i + 1) ≠ nul then
             defs.find? (fun d => d.short_name == [chr s i, chr s (i + 1)])
           else none) with
    | some d => some (d, i + 2)
    | none =>
      match defs.find? (fun d => d.short_name == [chr s i]) with
      | some d => some (d, i + 1)
      | none => none

/-- Modelled from the spec: `node_condbool_parse` reads the format spec and a
code used as a truth test and matches it against the definition table; an
unknown code produces a located error. -/
def node_condbool_parse (s : Str) (i : Nat) (defs : List ExpandoDefinition)
    (err : ExpandoParseError) : Option (ExpandoNode × Nat) × ExpandoParseError :=
  let j := skip_fmt s i
  match defs_lookup defs s j with
  | some (d, k) => (some (.condBool d.short_name, k), err)
  | none => (none, { err with position := some j, message := "Unknown expando" })

/-- Modelled from the spec: `node_expando_parse` reads the format spec and a
code and matches it against the definition table; an unknown code produces a
located error (custom argument parsers are out of the modelled paths). -/
def node_expando_parse (s : Str) (i : Nat) (defs : List ExpandoDefinition)
    (err : ExpandoParseError) : Option (ExpandoNode × Nat) × ExpandoParseError :=
  let j := skip_fmt s i
  match defs_lookup defs s j with
  | some (d, k) => (some (.expando d.short_name, k), err)
  | none => (none, { err with position := some j, message := "Unknown expando" })

mutual

/-- Embeds `node_parse` (`parse.c` lines 260-428): dispatch on the lead character.
The C body is a while loop every branch of which returns, so it is a single
dispatch; the body after the initial `str++` reads nothing before the new
cursor and is factored out as `node_parse_construct`.  The step budget
models no C state: it only makes the recursion structural, and running out
yields the same null-node result as the unreachable fall-through of the C
loop. -/
def node_parse (fuel : Nat) (s : Str) (defs : List ExpandoDefinition) (i : Nat)
    (e : Option Nat) (cs : ExpandoConditionStart) (err : ExpandoParseError) :
    Option (ExpandoNode × Nat) × ExpandoParseError :=
  match fuel with
  | 0 => (none, err)
  | fuel + 1 =>
    if chr s i ≠ nul ∧ inBound i e then
      if chr s i = '%' ∨ (cs = .CON_START ∧ (chr s i = '?' ∨ chr s i = '<')) then
        node_parse_construct fuel s defs (i + 1) e cs err
      else
        match node_text_parse s i e with
        | some (nd, j) => (some (nd, j), err)
        | none => (none, err)
    else (none, err)
termination_by structural fuel

/-- The body of `node_parse` after the leading `%` (or the implicit `%` of a
condition start) has been consumed (`parse.c` lines 275-418): `%%` yields a
one-character text node, `?`/`<` a conditional, anything else an expando
(a cond-bool one inside a test slot). -/
def node_parse_construct (fuel : Nat) (s : Str) (defs : List ExpandoDefinition) (i : Nat)
    (e : Option Nat) (cs : ExpandoConditionStart) (err : ExpandoParseError) :
    Option (ExpandoNode × Nat) × ExpandoParseError :=
  match fuel with
  | 0 => (none, err)
  | fuel + 1 =>
    if chr s i = '%' then
      (some (.text ['%'], i + 1), err)
    else if chr s i = '?' ∨ chr s i = '<' then
      node_parse_cond fuel s defs i err
    else
      if cs = .CON_START then
        match node_condbool_parse s i defs err with
        | (none, err1) => (none, err1)
        | (some (nd, j), err1) =>
          if err1.position.isSome then (none, err1) else (some (nd, j), err1)
      else
        match node_expando_parse s i defs err with
        | (none, err1) => (none, err1)
        | (some (nd, j), err1) =>
          if err1.position.isSome then (none, err1) else (some (nd, j), err1)
termination_by structural fuel

/-- The conditional branch of `node_parse` (`parse.c` lines 282-305), entered
with the cursor on the `?` or `<` that opens the conditional: parse the test
slot up to the first `?`, then hand over to the branch parsing. -/
def node_parse_cond (fuel : Nat) (s : Str) (defs : List ExpandoDefinition) (i : Nat)
    (err : ExpandoParseError) : Option (ExpandoNode × Nat) × ExpandoParseError :=
  match fuel with
  | 0 => (none, err)
  | fuel + 1 =>
    let term := if chr s i = '?' then '?' else '>'
    let cond_end := skip_until_ch s i '?'
    match node_parse fuel s defs i (some cond_end) .CON_START err with
    | (none, err1) => (none, err1)
    | (some (node_cond, next), err1) =>
      if chr s next ≠ '?' then
        (none, { err1 with position := some next, message := msg_missing '?' })
      else
        node_parse_branches fuel s defs (next + 1) term node_cond err1
termination_by structural fuel

/-- The branch section of the conditional (`parse.c` lines 307-396): locate
and parse the if-true branch (an empty branch becomes an Empty node), then,
unless the scan stopped on the end terminator, the if-false branch. -/
def node_parse_branches (fuel : Nat) (s : Str) (defs : List ExpandoDefinition)
    (start_true : Nat) (term : Char) (node_cond : ExpandoNode) (err : ExpandoParseError) :
    Option (ExpandoNode × Nat) × ExpandoParseError :=
  match fuel with
  | 0 => (none, err)
  | fuel + 1 =>
    let end_true := skip_until_if_true_end s start_true term
    let only_true := chr s end_true = term
    if chr s end_true ≠ '&' ∧ ¬only_true then
      (none, { err with position := some end_true, message := msg_missing_or term })
    else
      match parse_branch fuel s defs start_true end_true [] err with
      | (none, err2) => (none, err2)
      | (some (nodes_true, fin_t), err2) =>
        let node_true := if fin_t = end_true ∧ nodes_true.isEmpty then [ExpandoNode.empty] else nodes_true
        if only_true then
          (some (.condition node_cond node_true none, end_true + 1), err2)
        else
          let start_false := end_true + 1
          let end_false := skip_until_if_false_end s start_false term
          if chr s end_false ≠ term then
            (none, { err2 with position := some start_false, message := msg_missing term })
          else
            match parse_branch fuel s defs start_false end_false [] err2 with
            | (none, err3) => (none, err3)
            | (some (nodes_false, fin_f), err3) =>
              let node_false :=
                if fin_f = end_false ∧ nodes_false.isEmpty then [ExpandoNode.empty] else nodes_false
              (some (.condition node_cond node_true (some node_false), end_false + 1), err3)
termination_by structural fuel

/-- The branch-content loop of the conditional (`parse.c` lines 327-340 and
373-387): repeatedly parse nodes while the cursor is strictly before the
branch end, appending each to the sibling chain. -/
def parse_branch (fuel : Nat) (s : Str) (defs : List ExpandoDefinition)
    (start end_ : Nat) (acc : List ExpandoNode) (err : ExpandoParseError) :
    Option (List ExpandoNode × Nat) × ExpandoParseError :=
  match fuel with
  | 0 => (none, err)
  | fuel + 1 =>
    if start < end_ then
      match node_parse fuel s defs start (some end_) .CON_NO_CONDITION err with
      | (none, err1) => (none, err1)
      | (some (nd, j), err1) => parse_branch fuel s defs j end_ (acc ++ [nd]) err1
    else (some (acc, start), err)
termination_by structural fuel

end

/-- Modelled from the spec: with no padding markers present, the re-pad pass
leaves the root sibling list unchanged (padding constructs are outside the
modelled grammar fragment). -/
def node_padding_repad (nodes : List ExpandoNode) : List ExpandoNode := nodes

/-- The step budget handed to `node_parse` by the top-level loop; any budget
large enough for the nesting of `s` gives the C result, and this one always
is, because every recursive call and loop iteration advances the cursor. -/
def nodeFuel (s : Str) : Nat := 2 * s.length + 8

/-- The top-level loop of `node_tree_parse` (`parse.c` lines 449-457). -/
def node_tree_parse_go (s : Str) (defs : List ExpandoDefinition) :
    Nat → Nat → List ExpandoNode → ExpandoParseError → List ExpandoNode × ExpandoParseError
  | 0, _, acc, err => (acc, err)
  | k + 1, i, acc, err =>
    if chr s i = nul then (acc, err)
    else
      match node_parse (nodeFuel s) s defs i none .CON_NO_CONDITION err with
      | (none, err1) => (acc, err1)
      | (some (nd, j), err1) => node_tree_parse_go s defs k j (acc ++ [nd]) err1

/-- Embeds `node_tree_parse` (`parse.c` lines 437-460): a null or empty string
appends a single Empty node; otherwise parse nodes until the string or the
parse is exhausted, then run the re-pad pass. -/
def node_tree_parse (string : Option Str) (defs : List ExpandoDefinition)
    (err : ExpandoParseError) : List ExpandoNode × ExpandoParseError :=
  match string with
  | none => ([ExpandoNode.empty], err)
  | some s =>
    if chr s 0 = nul then ([ExpandoNode.empty], err)
    else
      let r := node_tree_parse_go s defs (s.length + 1) 0 [] err
      (node_padding_repad r.1, r.2)

/-- The compiled Expando (`struct Expando`): the retained source string and
the root sibling chain (a null tree is the empty chain). -/
structure Expando where
  string : Str
  node : List ExpandoNode

/-- Embeds `expando_new` (`expando.c` lines 43-48); the string duplication of
`mutt_str_dup` is modelled as retaining the value. -/
def expando_new (format : Str) : Expando := { string := format, node := [] }

/-- Embeds `expando_parse` (`expando.c` lines 74-97): parse the retained string with
a zero-initialised error record; on error copy the message into the caller
buffer and return a null Expando (the partial tree is dropped), otherwise
return the Expando owning the tree and leave the caller buffer untouched. -/
def expando_parse (str : Option Str) (defs : List ExpandoDefinition) (errbuf : String) :
    Option Expando × String :=
  match str with
  | none => (none, errbuf)
  | some s =>
    let exp := expando_new s
    let r := node_tree_parse (some exp.string) defs initErr
    match r.2.position with
    | some _ => (none, r.2.message)
    | none => (some { exp with node := r.1 }, errbuf)

/-- Modelled from the spec: `mutt_str_equal` compares two strings byte for
byte. -/
def mutt_str_equal (a b : Str) : Bool := a == b

/-- Embeds `expando_equal` (`expando.c` lines 128-136): two null Expandos are equal,
a null one never equals a non-null one, and otherwise equality is equality
of the retained source strings. -/
def expando_equal (a b : Option Expando) : Bool :=
  match a, b with
  | none, none => true
  | some x, some y => mutt_str_equal x.string y.string
  | _, _ => false

/-- Embeds `expando_render` (`expando.c` lines 109-120): a null Expando, a null tree
or a null callback table renders nothing; otherwise a `max_cols` of -1 is
remapped to 8192 and the tree walk `node_render` (an external collaborator,
passed in as a function) runs.  The output buffer is threaded as a value. -/
def expando_render {R D B : Type} (node_render : List ExpandoNode → R → B → Int → D → Nat → Int × B)
    (exp : Option Expando) (rdata : Option R) (data : D) (flags : Nat)
    (max_cols : Int) (buf : B) : Int × B :=
  match exp with
  | none => (0, buf)
  | some e =>
    if e.node.isEmpty then (0, buf)
    else
      match rdata with
      | none => (0, buf)
      | some rd =>
        let mc := if max_cols = -1 then (8192 : Int) else max_cols
        node_render e.node rd buf mc data flags

/-- The definition table of the empty-if-else regression test
(`test/expando/empty_if_else.c`): string codes `c`, `f` and `t`. -/
def defsC : List ExpandoDefinition :=
  [ { short_name := toL "c", long_name := some (toL "cherry"), did := 1, uid := 2 },
    { short_name := toL "f", long_name := some (toL "fig"), did := 1, uid := 2 },
    { short_name := toL "t", long_name := some (toL "tangerine"), did := 1, uid := 3 } ]

/-- The character the scan saw just before position `j`, for a scan that
started at `i0` with `prev` initialised to NUL. -/
def prevC (s : Str) (i0 j : Nat) : Char := if j ≤ i0 then nul else chr s (j - 1)

/-- The nesting depth the conditional scans reach at position `j`, starting
from depth 0 at `i0`: the fold of `stepCtr` over the scanned positions. -/
def depthAt (s : Str) (i0 : Nat) : Nat → Int
  | 0 => 0
  | j + 1 => if j + 1 ≤ i0 then 0 else stepCtr (prevC s i0 j) (chr s j) (depthAt s i0 j)

/-- The stopping positions of the if-true scan started at `i0`: nesting depth
zero and either an ampersand (escaped or not) or an un-escaped end
terminator. -/
def isTrueStop (s : Str) (term : Char) (i0 j : Nat) : Prop :=
  depthAt s i0 j = 0 ∧ (chr s j = '&' ∨ (chr s j = term ∧ prevC s i0 j ≠ '%'))

instance (s : Str) (term : Char) (i0 j : Nat) : Decidable (isTrueStop s term i0 j) :=
  inferInstanceAs (Decidable (_ ∧ _))

/-- A well-located error record for string `s`: if the position is set it
points into `s` (possibly at the terminating NUL). -/
def posOK (s : Str) (err : ExpandoParseError) : Prop :=
  ∀ p, err.position = some p → p ≤ s.length

theorem chr_eq_nul_of_le (s : Str) (i : Nat) (h : s.length ≤ i) : chr s i = nul :=
  List.getD_eq_default s nul h

theorem lt_length_of_chr_ne_nul {s : Str} {i : Nat} (h : chr s i ≠ nul) : i < s.length := by
  by_contra hlt
  exact h (chr_eq_nul_of_le s i (Nat.le_of_not_lt hlt))

theorem skip_ch_go_le (s : Str) (c : Char) :
    ∀ k i, i ≤ s.length → skip_ch_go s c k i ≤ s.length := by
  intro k
  induction k with
  | zero => intro i h; simpa [skip_ch_go] using h
  | succ k ih =>
    intro i h
    rw [skip_ch_go]
    split
    · exact h
    · rename_i hcond
      have hne : chr s i ≠ nul := fun hx => hcond (Or.inl hx)
      exact ih (i + 1) (lt_length_of_chr_ne_nul hne)

theorem skip_true_go_le (s : Str) (term : Char) :
    ∀ k ctr prev i, i ≤ s.length → skip_true_go s term k ctr prev i ≤ s.length := by
  intro k
  induction k with
  | zero => intro ctr prev i h; simpa [skip_true_go] using h
  | succ k ih =>
    intro ctr prev i h
    rw [skip_true_go]
    split
    · exact h
    · split
      · exact h
      · rename_i hne _
        exact ih _ _ (i + 1) (lt_length_of_chr_ne_nul hne)

theorem skip_false_go_le (s : Str) (term : Char) :
    ∀ k ctr prev i, i ≤ s.length → skip_false_go s term k ctr prev i ≤ s.length := by
  intro k
  induction k with
  | zero => intro ctr prev i h; simpa [skip_false_go] using h
  | succ k ih =>
    intro ctr prev i h
    rw [skip_false_go]
    split
    · exact h
    · split
      · exact h
      · rename_i hne _
        exact ih _ _ (i + 1) (lt_length_of_chr_ne_nul hne)

theorem digit_go_le (s : Str) :
    ∀ k i, i ≤ s.length → digit_go s k i ≤ s.length := by
  intro k
  induction k with
  | zero => intro i h; simpa [digit_go] using h
  | succ k ih =>
    intro i h
    rw [digit_go]
    split
    · rename_i hdig
      have hne : chr s i ≠ nul := by
        intro hx
        rw [hx] at hdig
        simp [nul, Char.isDigit] at hdig
      exact ih (i + 1) (lt_length_of_chr_ne_nul hne)
    · exact h

theorem text_go_le (s : Str) (e : Option Nat) :
    ∀ k i, i ≤ s.length → text_go s e k i ≤ s.length := by
  intro k
  induction k with
  | zero => intro i h; simpa [text_go] using h
  | succ k ih =>
    intro i h
    rw [text_go]
    split
    · exact h
    · rename_i hcond
      have hne : chr s i ≠ nul := fun hx => hcond (Or.inl hx)
      exact ih (i + 1) (lt_length_of_chr_ne_nul hne)

theorem skip_until_ch_le (s : Str) (i : Nat) (c : Char) (h : i ≤ s.length) :
    skip_until_ch s i c ≤ s.length := skip_ch_go_le s c _ i h

theorem skip_until_if_true_end_le (s : Str) (i : Nat) (term : Char) (h : i ≤ s.length) :
    skip_until_if_true_end s i term ≤ s.length := skip_true_go_le s term _ _ _ i h

theorem skip_until_if_false_end_le (s : Str) (i : Nat) (term : Char) (h : i ≤ s.length) :
    skip_until_if_false_end s i term ≤ s.length := skip_false_go_le s term _ _ _ i h

theorem skip_fmt_le (s : Str) (i : Nat) (h : i ≤ s.length) : skip_fmt s i ≤ s.length := by
  rw [skip_fmt]
  set i1 := (if chr s i = '-' ∨ chr s i = '=' then i + 1 else i) with hi1
  have h1 : i1 ≤ s.length := by
    rw [hi1]
    split
    · rename_i hc
      have hne : chr s i ≠ nul := by
        rcases hc with hc | hc <;> rw [hc] <;> decide
      exact lt_length_of_chr_ne_nul hne
    · exact h
  set i2 := digit_go s (s.length + 1 - i1) i1 with hi2
  have h2 : i2 ≤ s.length := digit_go_le s _ _ h1
  split
  · rename_i hdot
    have hne : chr s i2 ≠ nul := by rw [hdot]; decide
    exact digit_go_le s _ _ (lt_length_of_chr_ne_nul hne)
  · exact h2

theorem depthAt_self (s : Str) (i0 : Nat) : depthAt s i0 i0 = 0 := by
  cases i0 with
  | zero => rfl
  | succ j => simp [depthAt]

theorem prevC_self (s : Str) (i0 : Nat) : prevC s i0 i0 = nul := by
  simp [prevC]

theorem depthAt_succ (s : Str) {i0 i : Nat} (h : i0 ≤ i) :
    depthAt s i0 (i + 1) = stepCtr (prevC s i0 i) (chr s i) (depthAt s i0 i) := by
  rw [depthAt]
  rw [if_neg (by omega)]

theorem prevC_succ (s : Str) {i0 i : Nat} (h : i0 ≤ i) :
    prevC s i0 (i + 1) = chr s i := by
  rw [prevC, if_neg (by omega)]
  simp

theorem skip_true_go_spec (s : Str) (term : Char) :
    ∀ (k i i0 : Nat), i0 ≤ i → s.length + 1 - i ≤ k →
      i ≤ skip_true_go s term k (depthAt s i0 i) (prevC s i0 i) i
      ∧ (∀ m, i ≤ m → m < skip_true_go s term k (depthAt s i0 i) (prevC s i0 i) i →
          chr s m ≠ nul ∧ ¬ isTrueStop s term i0 m)
      ∧ (chr s (skip_true_go s term k (depthAt s i0 i) (prevC s i0 i) i) = nul
          ∨ isTrueStop s term i0 (skip_true_go s term k (depthAt s i0 i) (prevC s i0 i) i)) := by
  intro k
  induction k with
  | zero =>
    intro i i0 hi0 hk
    have hnul : chr s i = nul := chr_eq_nul_of_le s i (by omega)
    rw [skip_true_go]
    exact ⟨Nat.le_refl i, fun m h1 h2 => absurd h2 (by omega), Or.inl hnul⟩
  | succ k ih =>
    intro i i0 hi0 hk
    rw [skip_true_go]
    split
    · rename_i hnul
      exact ⟨Nat.le_refl i, fun m h1 h2 => absurd h2 (by omega), Or.inl hnul⟩
    · split
      · rename_i hnul hstop
        refine ⟨Nat.le_refl i, fun m h1 h2 => absurd h2 (by omega), Or.inr ?_⟩
        exact ⟨hstop.1, hstop.2.elim (fun h => Or.inr h) (fun h => Or.inl h)⟩
      · rename_i hnul hstop
        have hlt : i < s.length := lt_length_of_chr_ne_nul hnul
        have heqd : stepCtr (prevC s i0 i) (chr s i) (depthAt s i0 i) = depthAt s i0 (i + 1) :=
          (depthAt_succ s hi0).symm
        have heqp : chr s i = prevC s i0 (i + 1) := (prevC_succ s hi0).symm
        rw [heqd, heqp]
        obtain ⟨h1, h2, h3⟩ := ih (i + 1) i0 (by omega) (by omega)
        refine ⟨by omega, ?_, h3⟩
        intro m hm1 hm2
        rcases Nat.eq_or_lt_of_le hm1 with hm | hm
        · subst hm
          refine ⟨hnul, ?_⟩
          intro hts
          exact hstop ⟨hts.1, hts.2.elim (fun h => Or.inr h) (fun h => Or.inl h)⟩
        · exact h2 m hm hm2

theorem defs_lookup_le {defs : List ExpandoDefinition} {s : Str} {i : Nat}
    {d : ExpandoDefinition} {k : Nat} (h : defs_lookup defs s i = some (d, k)) :
    k ≤ s.length := by
  rw [defs_lookup] at h
  split at h
  · exact absurd h (by simp)
  · rename_i hne
    have hi : i < s.length := lt_length_of_chr_ne_nul hne
    split at h
    · rename_i d1 h1
      obtain ⟨rfl, rfl⟩ : d1 = d ∧ i + 2 = k := by
        constructor <;> [skip; skip] <;> injection h with h' <;> cases h' <;> rfl
      split at h1
      · rename_i hne2
        have := lt_length_of_chr_ne_nul hne2
        omega
      · exact absurd h1 (by simp)
    · split at h
      · injection h with h'
        cases h'
        omega
      · exact absurd h (by simp)

theorem node_condbool_parse_ok (s : Str) (defs : List ExpandoDefinition) (i : Nat)
    (err : ExpandoParseError) (hi : i ≤ s.length) (hok : posOK s err) :
    posOK s (node_condbool_parse s i defs err).2
    ∧ ∀ nd k, (node_condbool_parse s i defs err).1 = some (nd, k) → k ≤ s.length := by
  rw [node_condbool_parse]
  have hj : skip_fmt s i ≤ s.length := skip_fmt_le s i hi
  split
  · rename_i d k hl
    refine ⟨hok, ?_⟩
    intro nd k' h
    injection h with h'
    cases h'
    exact defs_lookup_le hl
  · refine ⟨?_, by intro nd k h; exact absurd h (by simp)⟩
    intro p hp
    simp at hp
    omega

theorem node_expando_parse_ok (s : Str) (defs : List ExpandoDefinition) (i : Nat)
    (err : ExpandoParseError) (hi : i ≤ s.length) (hok : posOK s err) :
    posOK s (node_expando_parse s i defs err).2
    ∧ ∀ nd k, (node_expando_parse s i defs err).1 = some (nd, k) → k ≤ s.length := by
  rw [node_expando_parse]
  have hj : skip_fmt s i ≤ s.length := skip_fmt_le s i hi
  split
  · rename_i d k hl
    refine ⟨hok, ?_⟩
    intro nd k' h
    injection h with h'
    cases h'
    exact defs_lookup_le hl
  · refine ⟨?_, by intro nd k h; exact absurd h (by simp)⟩
    intro p hp
    simp at hp
    omega

theorem node_text_parse_le {s : Str} {i : Nat} {e : Option Nat} {nd : ExpandoNode} {j : Nat}
    (hi : i ≤ s.length) (h : node_text_parse s i e = some (nd, j)) : j ≤ s.length := by
  rw [node_text_parse] at h
  split at h
  · injection h with h'
    injection h' with h1 h2
    subst h2
    exact text_go_le s e _ i hi
  · exact absurd h (by simp)

theorem parse_invariant (s : Str) (defs : List ExpandoDefinition) :
    ∀ fuel : Nat,
      (∀ i e cs err, i ≤ s.length → posOK s err →
        posOK s (node_parse fuel s defs i e cs err).2
        ∧ ∀ nd j, (node_parse fuel s defs i e cs err).1 = some (nd, j) → j ≤ s.length)
      ∧ (∀ i e cs err, i ≤ s.length → posOK s err →
        posOK s (node_parse_construct fuel s defs i e cs err).2
        ∧ ∀ nd j, (node_parse_construct fuel s defs i e cs err).1 = some (nd, j) → j ≤ s.length)
      ∧ (∀ i err, i ≤ s.length → posOK s err →
        posOK s (node_parse_cond fuel s defs i err).2
        ∧ ∀ nd j, (node_parse_cond fuel s defs i err).1 = some (nd, j) → j ≤ s.length)
      ∧ (∀ st term nc err, st ≤ s.length → term ≠ nul → posOK s err →
        posOK s (node_parse_branches fuel s defs st term nc err).2
        ∧ ∀ nd j, (node_parse_branches fuel s defs st term nc err).1 = some (nd, j) → j ≤ s.length)
      ∧ (∀ st en acc err, st ≤ s.length → en ≤ s.length → posOK s err →
        posOK s (parse_branch fuel s defs st en acc err).2
        ∧ ∀ nds j, (parse_branch fuel s defs st en acc err).1 = some (nds, j) → j ≤ s.length) := by
  intro fuel
  induction fuel with
  | zero =>
    refine ⟨?_, ?_, ?_, ?_, ?_⟩
    · intro i e cs err hi hok
      exact ⟨hok, fun nd j h => absurd h (by simp [node_parse])⟩
    · intro i e cs err hi hok
      exact ⟨hok, fun nd j h => absurd h (by simp [node_parse_construct])⟩
    · intro i err hi hok
      exact ⟨hok, fun nd j h => absurd h (by simp [node_parse_cond])⟩
    · intro st term nc err hst hterm hok
      exact ⟨hok, fun nd j h => absurd h (by simp [node_parse_branches])⟩
    · intro st en acc err hst hen hok
      exact ⟨hok, fun nds j h => absurd h (by simp [parse_branch])⟩
  | succ fuel ih =>
    obtain ⟨IH1, IH2, IH3, IH4, IH5⟩ := ih
    refine ⟨?_, ?_, ?_, ?_, ?_⟩
    -- node_parse
    · intro i e cs err hi hok
      rw [node_parse]
      split
      · rename_i hcond
        have hlt : i < s.length := lt_length_of_chr_ne_nul hcond.1
        split
        · exact IH2 (i + 1) e cs err (by omega) hok
        · split
          · rename_i nd j heq
            refine ⟨hok, ?_⟩
            intro nd' j' h
            injection h with h1
            injection h1 with h2 h3
            subst h3
            exact node_text_parse_le hi heq
          · exact ⟨hok, fun nd j h => absurd h (by simp)⟩
      · exact ⟨hok, fun nd j h => absurd h (by simp)⟩
    -- node_parse_construct
    · intro i e cs err hi hok
      rw [node_parse_construct]
      split
      · rename_i hpc
        have hlt : i < s.length := lt_length_of_chr_ne_nul (by rw [hpc]; decide)
        refine ⟨hok, ?_⟩
        intro nd' j' h
        injection h with h1
        injection h1 with h2 h3
        subst h3
        omega
      · split
        · exact IH3 i err hi hok
        · split
          · split
            · rename_i err1 heq
              have hcb := node_condbool_parse_ok s defs i err hi hok
              rw [heq] at hcb
              exact ⟨hcb.1, fun nd j h => absurd h (by simp)⟩
            · rename_i nd j err1 heq
              have hcb := node_condbool_parse_ok s defs i err hi hok
              rw [heq] at hcb
              split
              · exact ⟨hcb.1, fun nd' j' h => absurd h (by simp)⟩
              · refine ⟨hcb.1, ?_⟩
                intro nd' j' h
                injection h with h1
                injection h1 with h2 h3
                subst h3
                exact hcb.2 nd j rfl
          · split
            · rename_i err1 heq
              have hcb := node_expando_parse_ok s defs i err hi hok
              rw [heq] at hcb
              exact ⟨hcb.1, fun nd j h => absurd h (by simp)⟩
            · rename_i nd j err1 heq
              have hcb := node_expando_parse_ok s defs i err hi hok
              rw [heq] at hcb
              split
              · exact ⟨hcb.1, fun nd' j' h => absurd h (by simp)⟩
              · refine ⟨hcb.1, ?_⟩
                intro nd' j' h
                injection h with h1
                injection h1 with h2 h3
                subst h3
                exact hcb.2 nd j rfl
    -- node_parse_cond
    · intro i err hi hok
      rw [node_parse_cond]
      have hterm : (if chr s i = '?' then '?' else '>') ≠ nul := by
        split <;> decide
      split
      · rename_i err1 heq
        have hnp := IH1 i (some (skip_until_ch s i '?')) .CON_START err hi hok
        rw [heq] at hnp
        exact ⟨hnp.1, fun nd j h => absurd h (by simp)⟩
      · rename_i node_cond next err1 heq
        have hnp := IH1 i (some (skip_until_ch s i '?')) .CON_START err hi hok
        rw [heq] at hnp
        have hnext : next ≤ s.length := hnp.2 node_cond next rfl
        split
        · refine ⟨?_, fun nd j h => absurd h (by simp)⟩
          intro p hp
          simp at hp
          omega
        · rename_i hq
          have hq' : chr s next = '?' := not_ne_iff.mp hq
          have : next < s.length := lt_length_of_chr_ne_nul (by rw [hq']; decide)
          exact IH4 (next + 1) _ node_cond err1 (by omega) hterm hnp.1
    -- node_parse_branches
    · intro st term nc err hst hterm hok
      rw [node_parse_branches]
      have het : skip_until_if_true_end s st term ≤ s.length :=
        skip_until_if_true_end_le s st term hst
      split
      · refine ⟨?_, fun nd j h => absurd h (by simp)⟩
        intro p hp
        simp at hp
        omega
      · rename_i hval
        split
        · rename_i err2 heq
          have hpb := IH5 st (skip_until_if_true_end s st term) [] err hst het hok
          rw [heq] at hpb
          exact ⟨hpb.1, fun nd j h => absurd h (by simp)⟩
        · rename_i nodes_true fin_t err2 heq
          have hpb := IH5 st (skip_until_if_true_end s st term) [] err hst het hok
          rw [heq] at hpb
          have hok2 : posOK s err2 := hpb.1
          split
          all_goals
            split
          all_goals try
            (rename_i honly
             have hlt : skip_until_if_true_end s st term < s.length :=
               lt_length_of_chr_ne_nul (by rw [honly]; exact hterm)
             refine ⟨hok2, ?_⟩
             intro nd2 j2 h
             simp only [Option.some.injEq, Prod.mk.injEq] at h
             obtain ⟨-, h2⟩ := h
             omega)
          all_goals
            (rename_i honly
             have hamp : chr s (skip_until_if_true_end s st term) = '&' := by
               by_contra hne
               exact hval ⟨hne, honly⟩
             have hlt : skip_until_if_true_end s st term < s.length :=
               lt_length_of_chr_ne_nul (by rw [hamp]; decide)
             have hef : skip_until_if_false_end s (skip_until_if_true_end s st term + 1) term ≤ s.length :=
               skip_until_if_false_end_le s _ term (by omega)
             dsimp only
             split
             · refine ⟨?_, fun nd j h => absurd h (by simp)⟩
               intro p hp
               simp at hp
               omega
             · rename_i hterm2
               have hterm2' : chr s (skip_until_if_false_end s (skip_until_if_true_end s st term + 1) term) = term :=
                 not_ne_iff.mp hterm2
               have hlt2 : skip_until_if_false_end s (skip_until_if_true_end s st term + 1) term < s.length :=
                 lt_length_of_chr_ne_nul (by rw [hterm2']; exact hterm)
               split
               · rename_i err3 heq2
                 have hpb2 := IH5 (skip_until_if_true_end s st term + 1)
                   (skip_until_if_false_end s (skip_until_if_true_end s st term + 1) term) [] err2
                   (by omega) hef hok2
                 rw [heq2] at hpb2
                 exact ⟨hpb2.1, fun nd j h => absurd h (by simp)⟩
               · rename_i nodes_false fin_f err3 heq2
                 have hpb2 := IH5 (skip_until_if_true_end s st term + 1)
                   (skip_until_if_false_end s (skip_until_if_true_end s st term + 1) term) [] err2
                   (by omega) hef hok2
                 rw [heq2] at hpb2
                 split
                 all_goals
                   (refine ⟨hpb2.1, ?_⟩
                    intro nd2 j2 h
                    simp only [Option.some.injEq, Prod.mk.injEq] at h
                    obtain ⟨-, h2⟩ := h
                    omega))
    -- parse_branch
    · intro st en acc err hst hen hok
      rw [parse_branch]
      split
      · split
        · rename_i err1 heq
          have hnp := IH1 st (some en) .CON_NO_CONDITION err hst hok
          rw [heq] at hnp
          exact ⟨hnp.1, fun nds j h => absurd h (by simp)⟩
        · rename_i nd j err1 heq
          have hnp := IH1 st (some en) .CON_NO_CONDITION err hst hok
          rw [heq] at hnp
          have hj : j ≤ s.length := hnp.2 nd j rfl
          exact IH5 j en (acc ++ [nd]) err1 hj hen hnp.1
      · refine ⟨hok, ?_⟩
        intro nds j h
        injection h with h1
        injection h1 with h2 h3
        subst h3
        exact hst

theorem node_tree_parse_go_ok (s : Str) (defs : List ExpandoDefinition) :
    ∀ k i acc err, i ≤ s.length → posOK s err →
      posOK s (node_tree_parse_go s defs k i acc err).2 := by
  intro k
  induction k with
  | zero => intro i acc err hi hok; simpa [node_tree_parse_go] using hok
  | succ k ih =>
    intro i acc err hi hok
    rw [node_tree_parse_go]
    split
    · exact hok
    · split
      · rename_i err1 heq
        have hnp := (parse_invariant s defs (nodeFuel s)).1 i none .CON_NO_CONDITION err hi hok
        rw [heq] at hnp
        exact hnp.1
      · rename_i nd j err1 heq
        have hnp := (parse_invariant s defs (nodeFuel s)).1 i none .CON_NO_CONDITION err hi hok
        rw [heq] at hnp
        exact ih j _ err1 (hnp.2 nd j rfl) hnp.1

theorem node_tree_parse_ok (s : Str) (defs : List ExpandoDefinition) (err : ExpandoParseError)
    (hok : posOK s err) : posOK s (node_tree_parse (some s) defs err).2 := by
  rw [node_tree_parse]
  split
  · exact hok
  · exact node_tree_parse_go_ok s defs (s.length + 1) 0 [] err (by omega) hok

/-- C1: for every format string and definition table, if parsing hits an
error then `expando_parse` returns a null Expando, the message of the error
record is copied into the caller's buffer and the recorded position points
into the string; if parsing succeeds, a non-null Expando is returned and the
caller's buffer is untouched (the success arm is exactly the one where the
error record's position stayed null). -/
theorem c1_expando_parse_error_contract (s : Str) (defs : List ExpandoDefinition) (errbuf : String) :
    (∀ p, (node_tree_parse (some s) defs initErr).2.position = some p →
      (expando_parse (some s) defs errbuf).1 = none
      ∧ (expando_parse (some s) defs errbuf).2 = (node_tree_parse (some s) defs initErr).2.message
      ∧ p ≤ s.length)
    ∧ ((node_tree_parse (some s) defs initErr).2.position = none →
      (expando_parse (some s) defs errbuf).1
          = some { string := s, node := (node_tree_parse (some s) defs initErr).1 }
      ∧ (expando_parse (some s) defs errbuf).2 = errbuf) := by
  have hok : posOK s (node_tree_parse (some s) defs initErr).2 :=
    node_tree_parse_ok s defs initErr (by intro p hp; simp [initErr] at hp)
  constructor
  · intro p hp
    refine ⟨?_, ?_, hok p hp⟩ <;>
      simp [expando_parse, expando_new, hp]
  · intro hp
    constructor <;>
      simp [expando_parse, expando_new, hp]

/-- Entry step of `node_parse`: when the cursor is in bounds and the dispatch
condition holds (a '%', or a '?' / '<' at condition start), the parser
consumes one byte and continues with the construct body. -/
theorem node_parse_entry (fuel : Nat) (s : Str) (defs : List ExpandoDefinition) (i : Nat)
    (e : Option Nat) (cs : ExpandoConditionStart) (err : ExpandoParseError)
    (hne : chr s i ≠ nul) (hb : inBound i e)
    (hdisp : chr s i = '%' ∨ (cs = .CON_START ∧ (chr s i = '?' ∨ chr s i = '<'))) :
    node_parse (fuel + 1) s defs i e cs err = node_parse_construct fuel s defs (i + 1) e cs err := by
  rw [node_parse, if_pos ⟨hne, hb⟩, if_pos hdisp]

/-- C2 (amended): the if-true forward scan stops at the first position, from
its start onward, that is the end of the string or a stopping position: at
nesting depth 0, any ampersand (even one preceded by '%') or an un-escaped
occurrence of the end terminator; the depth rises on `%<` and falls on an
un-escaped `>` as recorded by `depthAt`. -/
theorem c2_skip_true_first_stop (s : Str) (term : Char) (i0 : Nat) :
    i0 ≤ skip_until_if_true_end s i0 term
    ∧ (∀ m, i0 ≤ m → m < skip_until_if_true_end s i0 term →
        chr s m ≠ nul ∧ ¬ isTrueStop s term i0 m)
    ∧ (chr s (skip_until_if_true_end s i0 term) = nul
        ∨ isTrueStop s term i0 (skip_until_if_true_end s i0 term)) := by
  have h := skip_true_go_spec s term (s.length + 1 - i0) i0 i0 (Nat.le_refl i0) (Nat.le_refl _)
  rw [depthAt_self, prevC_self] at h
  simpa [skip_until_if_true_end] using h

theorem c2_skip_true_first_stop_witness :
    chr (toL "a&b") 0 ≠ nul ∧ ¬ isTrueStop (toL "a&b") '>' 0 0 :=
  (c2_skip_true_first_stop (toL "a&b") '>' 0).2.1 0 (Nat.le_refl 0) (by decide)

/-- C2 counterexample: scanning "%&x>" for the true-branch end with terminator
'>' stops at index 1, an ampersand that is preceded by '%' — so an escaped
ampersand does terminate the branch, contrary to the claim. -/
theorem c2_counterexample :
    skip_until_if_true_end (toL "%&x>") 0 '>' = 1
    ∧ chr (toL "%&x>") 0 = '%' ∧ chr (toL "%&x>") 1 = '&' := by
  refine ⟨rfl, rfl, rfl⟩

/-- C3: a syntactically empty true branch (the scan stops where it started)
stores an Empty node in the TRUE slot, and when the '&' is absent (the scan
stopped on the end terminator) the FALSE slot is null, not Empty; in
particular "%<c?>" parses to Condition(CondBool c, Empty, absent) and
"%<c?&>" to Condition(CondBool c, Empty, Empty). -/
theorem c3_empty_true_branch (fuel : Nat) (s : Str) (defs : List ExpandoDefinition)
    (st : Nat) (term : Char) (nc : ExpandoNode) (err : ExpandoParseError) :
    (skip_until_if_true_end s st term = st → chr s st = term →
      node_parse_branches (fuel + 2) s defs st term nc err
        = (some (.condition nc [ExpandoNode.empty] none, st + 1), err))
    ∧ expando_parse (some (toL "%<c?>")) defsC ""
        = (some { string := toL "%<c?>",
                  node := [.condition (.condBool (toL "c")) [.empty] none] }, "")
    ∧ expando_parse (some (toL "%<c?&>")) defsC ""
        = (some { string := toL "%<c?&>",
                  node := [.condition (.condBool (toL "c")) [.empty] (some [.empty])] }, "") := by
  refine ⟨?_, rfl, rfl⟩
  intro hskip hterm
  rw [node_parse_branches]
  simp [parse_branch, hskip, hterm]

theorem c3_empty_true_branch_witness :
    node_parse_branches 5 (toL ">") [] 0 '>' ExpandoNode.empty initErr
      = (some (.condition .empty [.empty] none, 1), initErr) :=
  (c3_empty_true_branch 3 (toL ">") [] 0 '>' .empty initErr).1 (by decide) (by decide)

/-- C4: parsing "%<c?xxx" (a conditional missing its closing '>') fails:
the returned Expando is null, the error position is byte 7 — the byte right
after "xxx", i.e. the end of the 7-byte string — and the message names the
missing '&' and '>'. -/
theorem c4_missing_terminator :
    (expando_parse (some (toL "%<c?xxx")) defsC "").1 = none
    ∧ (expando_parse (some (toL "%<c?xxx")) defsC "").2 = msg_missing_or '>'
    ∧ (node_tree_parse (some (toL "%<c?xxx")) defsC initErr).2.position = some 7
    ∧ (toL "%<c?xxx").length = 7
    ∧ '&' ∈ (msg_missing_or '>').toList ∧ '>' ∈ (msg_missing_or '>').toList := by
  refine ⟨rfl, rfl, rfl, rfl, ?_, ?_⟩ <;> decide

/-- C5: in the test slot of a conditional (condition start), a leading '?' or
'<' is consumed exactly as a written '%' would be — both entries reduce to
the same continuation on the next byte — so a conditional opener right after
it dispatches into conditional parsing, and a plain code in that position
parses as a CondBool node rather than an ordinary Expando node. -/
theorem c5_condition_start_implicit_percent (fuel : Nat) (s : Str)
    (defs : List ExpandoDefinition) (i : Nat) (e : Option Nat) (err : ExpandoParseError) :
    ((chr s i = '?' ∨ chr s i = '<') → inBound i e →
      node_parse (fuel + 1) s defs i e .CON_START err
        = node_parse_construct fuel s defs (i + 1) e .CON_START err)
    ∧ (chr s i = '%' → inBound i e →
      node_parse (fuel + 1) s defs i e .CON_START err
        = node_parse_construct fuel s defs (i + 1) e .CON_START err)
    ∧ ((chr s i = '?' ∨ chr s i = '<') → inBound i e →
        (chr s (i + 1) = '?' ∨ chr s (i + 1) = '<') →
      node_parse (fuel + 2) s defs i e .CON_START err
        = node_parse_cond fuel s defs (i + 1) err)
    ∧ (∀ nd j err2, chr s (i + 1) ≠ '%' → chr s (i + 1) ≠ '?' → chr s (i + 1) ≠ '<' →
      node_parse_construct (fuel + 1) s defs (i + 1) e .CON_START err = (some (nd, j), err2) →
      ∃ code, nd = ExpandoNode.condBool code) := by
  refine ⟨?_, ?_, ?_, ?_⟩
  · intro h hb
    exact node_parse_entry fuel s defs i e .CON_START err
      (by rcases h with h | h <;> rw [h] <;> decide) hb (Or.inr ⟨rfl, h⟩)
  · intro h hb
    exact node_parse_entry fuel s defs i e .CON_START err (by rw [h]; decide) hb (Or.inl h)
  · intro h hb h2
    rw [node_parse_entry (fuel + 1) s defs i e .CON_START err
      (by rcases h with h | h <;> rw [h] <;> decide) hb (Or.inr ⟨rfl, h⟩)]
    have hnp : chr s (i + 1) ≠ '%' := by
      rcases h2 with h2 | h2 <;> rw [h2] <;> decide
    rw [node_parse_construct, if_neg hnp, if_pos h2]
  · intro nd j err2 h1 h2 h3 heq
    have h23 : ¬(chr s (i + 1) = '?' ∨ chr s (i + 1) = '<') := by
      rintro (h | h)
      · exact h2 h
      · exact h3 h
    rw [node_parse_construct, if_neg h1, if_neg h23, if_pos rfl] at heq
    rcases hdl : defs_lookup defs s (skip_fmt s (i + 1)) with _ | ⟨d, k⟩
    · have hcb : (node_condbool_parse s (i + 1) defs err).1 = none := by
        simp [node_condbool_parse, hdl]
      rcases hcbv : node_condbool_parse s (i + 1) defs err with ⟨o, err1⟩
      rw [hcbv] at hcb heq
      simp only at hcb
      subst hcb
      exact absurd heq (by simp)
    · have hcb : node_condbool_parse s (i + 1) defs err
          = (some (ExpandoNode.condBool d.short_name, k), err) := by
        simp [node_condbool_parse, hdl]
      rw [hcb] at heq
      split at heq
      · rename_i x err1 hx
        exact absurd hx (by simp)
      · rename_i x nd0 j0 err1 hx
        simp only [Option.some.injEq, Prod.mk.injEq] at hx
        split at heq
        · exact absurd heq (by simp)
        · simp only [Option.some.injEq, Prod.mk.injEq] at heq
          exact ⟨d.short_name, heq.1.1.symm.trans hx.1.1.symm⟩

theorem c5_condition_start_implicit_percent_witness :
    (node_parse 4 (toL "<c") defsC 0 none .CON_START initErr
      = node_parse_construct 3 (toL "<c") defsC 1 none .CON_START initErr)
    ∧ (∃ code, ExpandoNode.condBool (toL "c") = ExpandoNode.condBool code) :=
  ⟨(c5_condition_start_implicit_percent 3 (toL "<c") defsC 0 none initErr).1
      (Or.inr rfl) trivial,
   (c5_condition_start_implicit_percent 3 (toL "<c") defsC 0 none initErr).2.2.2
      (ExpandoNode.condBool (toL "c")) 2 initErr (by decide) (by decide) (by decide) rfl⟩

/-- C6: a '%' followed by another '%' parses to a single Text node holding
the one-character string "%", with the cursor moved past both bytes; in
particular the whole input "%%" parses to exactly that node. -/
theorem c6_percent_escape (fuel : Nat) (s : Str) (defs : List ExpandoDefinition)
    (i : Nat) (e : Option Nat) (cs : ExpandoConditionStart) (err : ExpandoParseError) :
    (chr s i = '%' → chr s (i + 1) = '%' → inBound i e →
      node_parse (fuel + 2) s defs i e cs err = (some (.text ['%'], i + 2), err))
    ∧ node_tree_parse (some (toL "%%")) [] initErr = ([.text ['%']], initErr)
    ∧ expando_parse (some (toL "%%")) [] ""
        = (some { string := toL "%%", node := [.text ['%']] }, "") := by
  refine ⟨?_, rfl, rfl⟩
  intro h1 h2 hb
  rw [node_parse_entry (fuel + 1) s defs i e cs err (by rw [h1]; decide) hb (Or.inl h1)]
  rw [node_parse_construct, if_pos h2]

theorem c6_percent_escape_witness :
    node_parse 2 (toL "%%") [] 0 none .CON_NO_CONDITION initErr
      = (some (.text ['%'], 2), initErr) :=
  (c6_percent_escape 0 (toL "%%") [] 0 none .CON_NO_CONDITION initErr).1
    (by decide) (by decide) trivial

/-- C7: two non-null Expandos are equal exactly when their retained source
strings are byte-identical, and parsing the same successfully-parsing format
twice yields Expandos that compare equal. -/
theorem c7_expando_equal_by_string :
    (∀ a b : Expando, expando_equal (some a) (some b) = true ↔ a.string = b.string)
    ∧ (∀ (s : Str) (defs : List ExpandoDefinition) (errbuf : String) (e : Expando),
        (expando_parse (some s) defs errbuf).1 = some e →
        expando_equal (expando_parse (some s) defs errbuf).1
          (expando_parse (some s) defs errbuf).1 = true) := by
  constructor
  · intro a b
    simp [expando_equal, mutt_str_equal]
  · intro s defs errbuf e he
    rw [he]
    simp [expando_equal, mutt_str_equal]

theorem c7_expando_equal_by_string_witness :
    (expando_equal (some { string := toL "x", node := [] } : Option Expando)
        (some { string := toL "x", node := [] }) = true)
    ∧ expando_equal (expando_parse (some (toL "%t")) defsC "").1
        (expando_parse (some (toL "%t")) defsC "").1 = true :=
  ⟨(c7_expando_equal_by_string.1 { string := toL "x", node := [] }
      { string := toL "x", node := [] }).mpr rfl,
   c7_expando_equal_by_string.2 (toL "%t") defsC ""
      { string := toL "%t", node := [ExpandoNode.expando (toL "t")] } rfl⟩

/-- C8: for an Expando with a non-null root and a non-null callback table,
rendering with max_cols = -1 produces exactly the same return value and
output as rendering with max_cols = 8192, for every tree walk. -/
theorem c8_render_minus_one_is_8192 {R D B : Type}
    (render : List ExpandoNode → R → B → Int → D → Nat → Int × B)
    (e : Expando) (rd : R) (data : D) (flags : Nat) (buf : B) (h : e.node ≠ []) :
    expando_render render (some e) (some rd) data flags (-1) buf
      = expando_render render (some e) (some rd) data flags 8192 buf := by
  obtain ⟨estr, enodes⟩ := e
  cases enodes with
  | nil => exact absurd rfl h
  | cons hd tl => simp [expando_render]

theorem c8_render_minus_one_is_8192_witness :
    expando_render (fun _ _ b mc _ _ => (mc, b)) (some { string := [], node := [ExpandoNode.empty] })
        (some (0 : Nat)) (0 : Nat) 0 (-1) (0 : Nat)
      = expando_render (fun _ _ b mc _ _ => (mc, b)) (some { string := [], node := [ExpandoNode.empty] })
        (some (0 : Nat)) (0 : Nat) 0 8192 (0 : Nat) :=
  c8_render_minus_one_is_8192 (fun _ _ b mc _ _ => (mc, b))
    { string := [], node := [ExpandoNode.empty] } 0 0 0 0 (by simp)

/-- C9: a null or empty format string is not a parse error: `node_tree_parse`
appends a single Empty node and leaves the error record untouched, so
`expando_parse` of the empty string returns an Expando whose tree is exactly
one Empty node, with the caller's buffer untouched. -/
theorem c9_empty_string_parses (defs : List ExpandoDefinition) (errbuf : String)
    (err : ExpandoParseError) :
    node_tree_parse none defs err = ([ExpandoNode.empty], err)
    ∧ node_tree_parse (some []) defs err = ([ExpandoNode.empty], err)
    ∧ expando_parse (some []) defs errbuf
        = (some { string := [], node := [ExpandoNode.empty] }, errbuf) :=
  ⟨rfl, rfl, rfl⟩

/-- C10: a null Expando, a null root node or a null callback table makes
`expando_render` return 0 with the output buffer unchanged, for every
`max_cols` — including -1, since the guard fires before the -1 remap. -/
theorem c10_render_null_guard {R D B : Type}
    (render : List ExpandoNode → R → B → Int → D → Nat → Int × B)
    (data : D) (flags : Nat) (mc : Int) (buf : B) :
    (∀ rdata : Option R, expando_render render none rdata data flags mc buf = (0, buf))
    ∧ (∀ (e : Expando) (rdata : Option R), e.node = [] →
        expando_render render (some e) rdata data flags mc buf = (0, buf))
    ∧ (∀ e : Expando, expando_render render (some e) none data flags mc buf = (0, buf)) := by
  refine ⟨fun rdata => rfl, ?_, ?_⟩
  · intro e rdata he
    simp [expando_render, he]
  · intro e
    rw [expando_render]
    split
    · rfl
    · rfl

theorem c10_render_null_guard_witness :
    expando_render (fun _ _ b mc _ _ => (mc, b)) (some { string := [], node := [] })
        (some (0 : Nat)) (0 : Nat) 0 (-1) (0 : Nat) = (0, 0) :=
  (c10_render_null_guard (fun _ _ b mc _ _ => (mc, b)) (0 : Nat) 0 (-1) (0 : Nat)).2.1
    { string := [], node := [] } (some 0) rfl

theorem c1_expando_parse_error_contract_witness :
    ((expando_parse (some (toL "%<c?xxx")) defsC "z").1 = none
      ∧ (expando_parse (some (toL "%<c?xxx")) defsC "z").2
          = (node_tree_parse (some (toL "%<c?xxx")) defsC initErr).2.message
      ∧ 7 ≤ (toL "%<c?xxx").length)
    ∧ ((expando_parse (some (toL "ab")) [] "z").1
        = some { string := toL "ab", node := (node_tree_parse (some (toL "ab")) [] initErr).1 }
      ∧ (expando_parse (some (toL "ab")) [] "z").2 = "z") :=
  ⟨(c1_expando_parse_error_contract (toL "%<c?xxx") defsC "z").1 7 rfl,
   (c1_expando_parse_error_contract (toL "ab") [] "z").2 rfl⟩
